import Mathlib

/-!
# Olivia `binheapv2`: the double-indexed eviction ring

A shallow embedding of `src/binheap/binheapv2/double_indexed_array.go`.

* A `*Node` that is not nil is a `Node` value; a slot of `Tree` is an
  `Option Node` (`none` is Go's `nil`).
* `Tree` is a Go slice: `Tree.length` is `len(d.Tree)` and
  `Tree.length + spareCap` is `cap(d.Tree)`, so `len <= cap` always holds.
* `keyLookup` is a Go map: an association list without duplicate keys.
* Go `int` is `Int`; indices stay far below `2^63`, no wrap-around is modelled.
* The embedded `sync.Mutex` is the flag `locked`.
* A run-time panic (index out of range, nil dereference, division by zero),
  and a `Lock` that can never be granted, end the call with a `Fault`.
-/

set_option autoImplicit false

namespace binheapv2

/-- The `Direction` enumeration of the source. -/
inductive Direction where
  | INCREMENT
  | DECREMENT
  deriving DecidableEq, Repr

/-- The entry record `Node` of package `binheap`: a key and an absolute
timeout (nanoseconds on the time line). -/
structure Node where
  Key : String
  Timeout : Int
  deriving DecidableEq, Repr

/-- The ways a call can fail to return. -/
inductive Fault where
  | indexOutOfRange
  | nilDereference
  | divideByZero
  | deadlock
  | unlockOfUnlocked
  deriving DecidableEq, Repr

/-- The struct `BinheapOptimized`. -/
structure BinheapOptimized where
  Tree : List (Option Node)
  spareCap : Nat
  maxIndex : Int
  minIndex : Int
  keyLookup : AList (fun _ : String => Int)
  locked : Bool

/-- Go's `cap(d.Tree)`. -/
def treeCap (d : BinheapOptimized) : Int :=
  (d.Tree.length : Int) + (d.spareCap : Int)

/-- Reading `t[i]`: panics outside `0 <= i < len(t)`. -/
def treeAt (t : List (Option Node)) (i : Int) : Except Fault (Option Node) :=
  if 0 ≤ i ∧ i < (t.length : Int) then .ok (t.getD i.toNat none)
  else .error Fault.indexOutOfRange

/-- Writing `t[i] = v`: panics outside `0 <= i < len(t)`. -/
def treeSet (t : List (Option Node)) (i : Int) (v : Option Node) :
    Except Fault (List (Option Node)) :=
  if 0 ≤ i ∧ i < (t.length : Int) then .ok (t.set i.toNat v)
  else .error Fault.indexOutOfRange

/-- The method `Lock` of the embedded mutex: a held mutex is never granted to
the same sequential caller. -/
def Lock (d : BinheapOptimized) : Except Fault BinheapOptimized :=
  if d.locked then .error Fault.deadlock else .ok { d with locked := true }

/-- The method `Unlock` of the embedded mutex. -/
def Unlock (d : BinheapOptimized) : Except Fault BinheapOptimized :=
  if d.locked then .ok { d with locked := false } else .error Fault.unlockOfUnlocked

/-- `NewBinheapOptimized(maxSize)`. -/
def NewBinheapOptimized (maxSize : Nat) : BinheapOptimized :=
  { maxIndex := 0
    minIndex := 0
    Tree := List.replicate maxSize none
    spareCap := 0
    keyLookup := ∅
    locked := false }

/-- `compareTimeouts(time1, time2)`: `time1.Sub(time2) > 0`. -/
def compareTimeouts (time1 time2 : Int) : Bool :=
  decide (time1 - time2 > 0)

/-- `safeIndex(treeCapacity, i, direction)`; Go's `%` truncates toward zero
and panics on a zero divisor. -/
def safeIndex (treeCapacity i : Int) (direction : Direction) : Except Fault Int :=
  if direction = Direction.INCREMENT then
    let nextVal := i + 1
    if nextVal > treeCapacity then
      if treeCapacity = 0 then .error Fault.divideByZero
      else .ok (Int.tmod nextVal treeCapacity)
    else
      .ok nextVal
  else
    let nextVal := i - 1
    if nextVal < 0 then
      .ok (treeCapacity - (nextVal * -1))
    else
      .ok nextVal

/-- `IsEmpty()`; `&&` does not evaluate its right side when the left is false. -/
def IsEmpty (d : BinheapOptimized) : Except Fault Bool :=
  if d.maxIndex = d.minIndex then
    (treeAt d.Tree d.maxIndex).map Option.isNone
  else .ok false

/-- `IsFull()`. -/
def IsFull (d : BinheapOptimized) : Except Fault Bool :=
  if d.maxIndex = d.minIndex then
    match treeAt d.Tree d.maxIndex with
    | .error f => .error f
    | .ok none => .ok false
    | .ok (some _) => (treeAt d.Tree d.minIndex).map Option.isSome
  else .ok false

/-- `insertAtIndexZero(newNode)`. -/
def insertAtIndexZero (d : BinheapOptimized) (newNode : Node) :
    Except Fault (BinheapOptimized × Node) :=
  match treeSet d.Tree 0 (some newNode) with
  | .error f => .error f
  | .ok t =>
    .ok ({ d with Tree := t, maxIndex := 0, minIndex := 0,
                  keyLookup := d.keyLookup.insert newNode.Key 0 }, newNode)

/-- `evictMinNodeLockless()`. -/
def evictMinNodeLockless (d : BinheapOptimized) :
    Except Fault (BinheapOptimized × Option Node) :=
  match treeAt d.Tree d.minIndex with
  | .error f => .error f
  | .ok minNode =>
    match treeSet d.Tree d.minIndex none with
    | .error f => .error f
    | .ok t =>
      let d1 : BinheapOptimized := { d with Tree := t }
      match IsEmpty d1 with
      | .error f => .error f
      | .ok e =>
        match (if !e then safeIndex (treeCap d1) d1.minIndex Direction.INCREMENT
               else .ok 0) with
        | .error f => .error f
        | .ok nextIndex =>
          let d2 : BinheapOptimized := { d1 with minIndex := nextIndex }
          match minNode with
          | none => .error Fault.nilDereference
          | some n => .ok ({ d2 with keyLookup := d2.keyLookup.erase n.Key }, some n)

/-- `EvictMinNode()`. -/
def EvictMinNode (d : BinheapOptimized) : Except Fault (BinheapOptimized × Option Node) :=
  match Lock d with
  | .error f => .error f
  | .ok d0 =>
    match evictMinNodeLockless d0 with
    | .error f => .error f
    | .ok (d1, minNode) =>
      match Unlock d1 with
      | .error f => .error f
      | .ok d2 => .ok (d2, minNode)

/-- The part of `Insert` after the empty and full tests (source lines 78 to 91). -/
def insertCompare (d : BinheapOptimized) (newNode : Node) :
    Except Fault (BinheapOptimized × Node) :=
  match treeAt d.Tree d.maxIndex with
  | .error f => .error f
  | .ok none => .error Fault.nilDereference
  | .ok (some top) =>
    let placed : Except Fault (BinheapOptimized × Int) :=
      if compareTimeouts top.Timeout newNode.Timeout then
        (safeIndex (treeCap d) d.minIndex Direction.DECREMENT).map
          (fun nextIndex => ({ d with minIndex := nextIndex }, nextIndex))
      else
        (safeIndex (treeCap d) d.maxIndex Direction.INCREMENT).map
          (fun nextIndex => ({ d with maxIndex := nextIndex }, nextIndex))
    match placed with
    | .error f => .error f
    | .ok (d1, nextIndex) =>
      match treeSet d1.Tree nextIndex (some newNode) with
      | .error f => .error f
      | .ok t =>
        match Unlock { d1 with Tree := t,
                               keyLookup := d1.keyLookup.insert newNode.Key nextIndex } with
        | .error f => .error f
        | .ok d2 => .ok (d2, newNode)

/-- The step `insertAtIndexZero; Unlock; return newNode` that both early
returns of `Insert` take. -/
def insertZeroAndReturn (d : BinheapOptimized) (newNode : Node) :
    Except Fault (BinheapOptimized × Node) :=
  match insertAtIndexZero d newNode with
  | .error f => .error f
  | .ok (d1, _) =>
    match Unlock d1 with
    | .error f => .error f
    | .ok d2 => .ok (d2, newNode)

/-- `Insert(newNode)` for a `newNode` that is not nil. -/
def Insert (d : BinheapOptimized) (newNode : Node) : Except Fault (BinheapOptimized × Node) :=
  match Lock d with
  | .error f => .error f
  | .ok d0 =>
    match IsEmpty d0 with
    | .error f => .error f
    | .ok true => insertZeroAndReturn d0 newNode
    | .ok false =>
      match IsFull d0 with
      | .error f => .error f
      | .ok false => insertCompare d0 newNode
      | .ok true =>
        match evictMinNodeLockless d0 with
        | .error f => .error f
        | .ok (d1, _) =>
          match IsEmpty d1 with
          | .error f => .error f
          | .ok true => insertZeroAndReturn d1 newNode
          | .ok false => insertCompare d1 newNode

/-- `CurrentSize()`. -/
def CurrentSize (d : BinheapOptimized) : Except Fault Int :=
  match treeAt d.Tree d.maxIndex with
  | .error f => .error f
  | .ok (some _) =>
    if d.maxIndex < d.minIndex then .ok (d.maxIndex + 1 + treeCap d)
    else .ok (d.maxIndex - d.minIndex)
  | .ok none => .ok 0

/-- The text of the error that `Peek` returns. -/
def peekError : String := "Index greater than size of heap."

/-- `Peek(index)`: the pair `(node, err)`, `err = none` for Go's nil error. -/
def Peek (d : BinheapOptimized) (index : Int) : Except Fault (Option Node × Option String) :=
  match CurrentSize d with
  | .error f => .error f
  | .ok size =>
    if index > size then .ok (none, some peekError)
    else (treeAt d.Tree index).map (fun n => (n, none))

/-- `Get(key)`: the pair `(node, ok)`. -/
def Get (d : BinheapOptimized) (key : String) : Except Fault (Option Node × Bool) :=
  match d.keyLookup.lookup key with
  | some index => (treeAt d.Tree index).map (fun n => (n, true))
  | none => .ok (none, false)

/-- The loop `for index, element := range d.Tree { newStorage.Tree[index] = element }`. -/
def copySlots (src : List (Option Node)) (dst : List (Option Node)) :
    Except Fault (List (Option Node)) :=
  src.enum.foldlM (fun acc p => treeSet acc (p.1 : Int) p.2) dst

/-- The loop `for k, v := range d.keyLookup { newStorage.keyLookup[k] = v }`. -/
def copyKeys (src : AList (fun _ : String => Int)) (dst : AList (fun _ : String => Int)) :
    AList (fun _ : String => Int) :=
  src.entries.foldl (fun acc p => acc.insert p.1 p.2) dst

/-- `Copy()`: the receiver after the call and the new ring. -/
def Copy (d : BinheapOptimized) : Except Fault (BinheapOptimized × BinheapOptimized) :=
  match Lock d with
  | .error f => .error f
  | .ok d0 =>
    let newStorage := NewBinheapOptimized d0.Tree.length
    match copySlots d0.Tree newStorage.Tree with
    | .error f => .error f
    | .ok t =>
      let filled : BinheapOptimized :=
        { newStorage with Tree := t,
                          keyLookup := copyKeys d0.keyLookup newStorage.keyLookup,
                          maxIndex := d0.maxIndex,
                          minIndex := d0.minIndex }
      match Unlock d0 with
      | .error f => .error f
      | .ok d1 => .ok (d1, filled)

/-- A call of the public mutating interface. -/
inductive Op where
  | insert (newNode : Node)
  | evictMin
  deriving DecidableEq, Repr

/-- One call on the ring; the returned value is dropped. -/
def applyOp (d : BinheapOptimized) : Op → Except Fault BinheapOptimized
  | Op.insert newNode => (Insert d newNode).map Prod.fst
  | Op.evictMin => (EvictMinNode d).map Prod.fst

/-- A sequence of calls, each on the state the previous one left. -/
def runOps (d : BinheapOptimized) : List Op → Except Fault BinheapOptimized
  | [] => .ok d
  | op :: rest =>
    match applyOp d op with
    | .error f => .error f
    | .ok d1 => runOps d1 rest

/-- Inserting the nodes of a list, first to last. -/
def insertAll (d : BinheapOptimized) (nodes : List Node) : Except Fault BinheapOptimized :=
  runOps d (nodes.map Op.insert)

/-- The ring after a call sequence that ends with the insertion of `e`: `e` in
slot 0, every other slot empty, both indices 0, one key. -/
def singleRing (C : Nat) (e : Node) : BinheapOptimized :=
  { maxIndex := 0
    minIndex := 0
    Tree := some e :: List.replicate (C - 1) none
    spareCap := 0
    keyLookup := (∅ : AList (fun _ : String => Int)).insert e.Key 0
    locked := false }

/-- INV1 of the specification: every occupied slot `i` is the slot its key is
mapped to. -/
def INV1 (d : BinheapOptimized) : Prop :=
  ∀ (i : Nat) (e : Node), d.Tree[i]? = some (some e) → d.keyLookup.lookup e.Key = some (i : Int)

/-- INV2 of the specification: the keys of the key index are exactly the keys
of the occupied slots. -/
def INV2 (d : BinheapOptimized) : Prop :=
  ∀ k : String, k ∈ d.keyLookup ↔ ∃ (i : Nat) (e : Node), d.Tree[i]? = some (some e) ∧ e.Key = k

/-- `compareTwoTimes(i, j)`: reads `Tree[i].Timeout`, then `Tree[j].Timeout`. -/
def compareTwoTimes (h : BinheapOptimized) (i j : Int) : Except Fault Bool :=
  match treeAt h.Tree i with
  | .error f => .error f
  | .ok none => .error Fault.nilDereference
  | .ok (some a) =>
    match treeAt h.Tree j with
    | .error f => .error f
    | .ok none => .error Fault.nilDereference
    | .ok (some b) => .ok (compareTimeouts a.Timeout b.Timeout)

/-- The two comparisons of `UpdateNodeTimeout` (source lines 160 to 164); both
branches are empty, the second comparison runs only when the first is false. -/
def percolationTests (d : BinheapOptimized) (nodeIndex : Int) : Except Fault Unit :=
  match compareTwoTimes d nodeIndex (nodeIndex + 1) with
  | .error f => .error f
  | .ok true => .ok ()
  | .ok false => (compareTwoTimes d (nodeIndex - 1) nodeIndex).map (fun _ => ())

/-- `UpdateNodeTimeout(key)`; `now` is the value of `time.Now().UTC()`. The
return for a key that is not in `keyLookup` does not call `Unlock`. The
assignment to `Tree[nodeIndex].Timeout` is modelled on the slot `nodeIndex`. -/
def UpdateNodeTimeout (d : BinheapOptimized) (key : String) (now : Int) :
    Except Fault (BinheapOptimized × Option Node) :=
  match Lock d with
  | .error f => .error f
  | .ok d0 =>
    match d0.keyLookup.lookup key with
    | none => .ok (d0, none)
    | some nodeIndex =>
      match treeAt d0.Tree nodeIndex with
      | .error f => .error f
      | .ok none => .error Fault.nilDereference
      | .ok (some n) =>
        match treeSet d0.Tree nodeIndex (some { n with Timeout := now }) with
        | .error f => .error f
        | .ok t =>
          let d1 : BinheapOptimized := { d0 with Tree := t }
          match CurrentSize d1 with
          | .error f => .error f
          | .ok size =>
            match (if nodeIndex + 1 < size then percolationTests d1 nodeIndex
                   else .ok ()) with
            | .error f => .error f
            | .ok _ =>
              match Get d1 key with
              | .error f => .error f
              | .ok (node, _) =>
                match Unlock d1 with
                | .error f => .error f
                | .ok d2 => .ok (d2, node)

/-- `ReAllocate(maxSize)` for `maxSize >= 0`: `append` writes into the spare
capacity when it suffices; otherwise the run time allocates a new array whose
capacity exceeds the new length by `slack`, a number the run time chooses. -/
def ReAllocate (d : BinheapOptimized) (maxSize : Nat) (slack : Nat) : BinheapOptimized :=
  { d with Tree := d.Tree ++ List.replicate maxSize none
           spareCap := if maxSize ≤ d.spareCap then d.spareCap - maxSize else slack }

/-- A call sequence in which `EvictMinNode` is issued only when `IsEmpty()` is
false at that point. -/
def evictGuarded : BinheapOptimized → List Op → Bool
  | _, [] => true
  | d, op :: rest =>
    (match op with
      | Op.insert _ => true
      | Op.evictMin =>
        match IsEmpty d with
        | .ok false => true
        | _ => false) &&
    (match applyOp d op with
      | .ok d1 => evictGuarded d1 rest
      | .error _ => true)

/-- A ring with two slots in which `minIndex` points at an empty slot: entry
`("a", 1)` in slot 0, `maxIndex = 0`, `minIndex = 1`, key `"a"` mapped to 0. -/
def emptyMinSlotRing : BinheapOptimized :=
  { Tree := [some ⟨"a", 1⟩, none]
    spareCap := 0
    maxIndex := 0
    minIndex := 1
    keyLookup := (∅ : AList (fun _ : String => Int)).insert "a" 0
    locked := false }

/-! ## Auxiliary lemmas -/

theorem erase_insert_empty (k : String) (v : Int) :
    ((∅ : AList (fun _ : String => Int)).insert k v).erase k = ∅ := by
  apply AList.ext
  simp [AList.insert, AList.erase, List.kerase]

theorem erase_singleton (k : String) (v : Int) :
    (AList.singleton k v : AList (fun _ : String => Int)).erase k = ∅ := by
  apply AList.ext
  simp [AList.singleton, AList.erase, List.kerase]

theorem lookup_singleton_self (k : String) (v : Int) :
    (AList.singleton k v : AList (fun _ : String => Int)).lookup k = some v := by
  rw [← AList.insert_empty, AList.lookup_insert]

theorem lookup_singleton_ne (k k1 : String) (v : Int) (h : k ≠ k1) :
    (AList.singleton k1 v : AList (fun _ : String => Int)).lookup k = none := by
  rw [← AList.insert_empty, AList.lookup_insert_ne h, AList.lookup_empty]

theorem mem_singleton_key (k k1 : String) (v : Int) :
    k ∈ (AList.singleton k1 v : AList (fun _ : String => Int)) ↔ k = k1 := by
  rw [← AList.insert_empty, AList.mem_insert]
  simp

theorem replicate_pred_cons (C : Nat) (hC : 1 ≤ C) :
    List.replicate C (none : Option Node) = none :: List.replicate (C - 1) none := by
  obtain ⟨n, rfl⟩ : ∃ n, C = n + 1 := ⟨C - 1, by omega⟩
  simp [List.replicate_succ]

theorem Insert_new (C : Nat) (hC : 1 ≤ C) (e : Node) :
    Insert (NewBinheapOptimized C) e = .ok (singleRing C e, e) := by
  simp [Insert, Lock, NewBinheapOptimized, IsEmpty, treeAt, replicate_pred_cons C hC,
    insertZeroAndReturn, insertAtIndexZero, treeSet, Unlock, singleRing, Except.map]

theorem EvictMinNode_single (C : Nat) (hC : 1 ≤ C) (e : Node) :
    EvictMinNode (singleRing C e) = .ok (NewBinheapOptimized C, some e) := by
  simp [EvictMinNode, Lock, singleRing, evictMinNodeLockless, treeAt, treeSet, IsEmpty,
    Unlock, NewBinheapOptimized, replicate_pred_cons C hC, Except.map, erase_singleton]

theorem Insert_single (C : Nat) (e e1 : Node) :
    Insert (singleRing C e) e1 = .ok (singleRing C e1, e1) := by
  simp [Insert, Lock, singleRing, IsEmpty, IsFull, evictMinNodeLockless, treeAt, treeSet,
    insertZeroAndReturn, insertAtIndexZero, Unlock, Except.map, erase_singleton]

theorem EvictMinNode_new (C : Nat) (hC : 1 ≤ C) :
    EvictMinNode (NewBinheapOptimized C) = .error Fault.nilDereference := by
  simp [EvictMinNode, Lock, evictMinNodeLockless, treeAt, treeSet, IsEmpty,
    NewBinheapOptimized, replicate_pred_cons C hC, Except.map]

theorem applyOp_new (C : Nat) (hC : 1 ≤ C) (op : Op) (d1 : BinheapOptimized)
    (h : applyOp (NewBinheapOptimized C) op = .ok d1) :
    ∃ e, d1 = singleRing C e := by
  cases op with
  | insert e =>
    refine ⟨e, ?_⟩
    simpa [applyOp, Insert_new C hC, Except.map] using h.symm
  | evictMin =>
    simp [applyOp, EvictMinNode_new C hC, Except.map] at h

theorem applyOp_single (C : Nat) (hC : 1 ≤ C) (e : Node) (op : Op) (d1 : BinheapOptimized)
    (h : applyOp (singleRing C e) op = .ok d1) :
    d1 = NewBinheapOptimized C ∨ ∃ e1, d1 = singleRing C e1 := by
  cases op with
  | insert e1 =>
    refine Or.inr ⟨e1, ?_⟩
    simpa [applyOp, Insert_single, Except.map] using h.symm
  | evictMin =>
    refine Or.inl ?_
    simpa [applyOp, EvictMinNode_single C hC, Except.map] using h.symm

/-- Every state that a call sequence reaches from a ring of one of the two
closed forms is again of one of the two closed forms. -/
theorem runOps_closed (C : Nat) (hC : 1 ≤ C) (ops : List Op) :
    ∀ d d1 : BinheapOptimized,
      (d = NewBinheapOptimized C ∨ ∃ e, d = singleRing C e) →
      runOps d ops = .ok d1 →
      d1 = NewBinheapOptimized C ∨ ∃ e, d1 = singleRing C e := by
  induction ops with
  | nil =>
    intro d d1 hd h
    simp only [runOps, Except.ok.injEq] at h
    exact h ▸ hd
  | cons op rest ih =>
    intro d d1 hd h
    simp only [runOps] at h
    cases hstep : applyOp d op with
    | error f => simp [hstep] at h
    | ok d2 =>
      simp only [hstep] at h
      refine ih d2 d1 ?_ h
      rcases hd with rfl | ⟨e, rfl⟩
      · exact Or.inr (applyOp_new C hC op d2 hstep)
      · exact applyOp_single C hC e op d2 hstep

theorem runOps_new_closed (C : Nat) (hC : 1 ≤ C) (ops : List Op) (d : BinheapOptimized)
    (h : runOps (NewBinheapOptimized C) ops = .ok d) :
    d = NewBinheapOptimized C ∨ ∃ e, d = singleRing C e :=
  runOps_closed C hC ops _ d (Or.inl rfl) h

theorem getElem?_replicate_none (n i : Nat) (e : Node) :
    (List.replicate n (none : Option Node))[i]? ≠ some (some e) := by
  intro h
  have hmem := List.getElem?_mem h
  simp [List.mem_replicate] at hmem

theorem getElem?_single (C i : Nat) (e e1 : Node) :
    (some e :: List.replicate (C - 1) (none : Option Node))[i]? = some (some e1) ↔
      i = 0 ∧ e = e1 := by
  cases i with
  | zero => simp
  | succ j =>
    simp only [List.getElem?_cons_succ]
    constructor
    · intro h
      exact absurd h (getElem?_replicate_none _ _ _)
    · intro h
      omega

theorem INV1_new (C : Nat) : INV1 (NewBinheapOptimized C) := by
  intro i e h
  exact absurd h (getElem?_replicate_none _ _ _)

theorem INV2_new (C : Nat) : INV2 (NewBinheapOptimized C) := by
  intro k
  constructor
  · intro h
    simp [NewBinheapOptimized] at h
  · rintro ⟨i, e, h, -⟩
    exact absurd h (getElem?_replicate_none _ _ _)

theorem INV1_single (C : Nat) (e : Node) : INV1 (singleRing C e) := by
  intro i e1 h
  obtain ⟨rfl, rfl⟩ := (getElem?_single C i e e1).mp h
  simp [singleRing, lookup_singleton_self]

theorem INV2_single (C : Nat) (e : Node) : INV2 (singleRing C e) := by
  intro k
  constructor
  · intro h
    have hk : k = e.Key := by simpa [singleRing, mem_singleton_key] using h
    exact ⟨0, e, by simp [singleRing], hk.symm⟩
  · rintro ⟨i, e1, h, rfl⟩
    obtain ⟨-, rfl⟩ := (getElem?_single C i e e1).mp h
    simp [singleRing, mem_singleton_key]

theorem Get_new (C : Nat) (k : String) : Get (NewBinheapOptimized C) k = .ok (none, false) := by
  simp [Get, NewBinheapOptimized]

theorem Get_single_self (C : Nat) (e : Node) :
    Get (singleRing C e) e.Key = .ok (some e, true) := by
  simp [Get, singleRing, treeAt, Except.map, lookup_singleton_self]

theorem Get_single_other (C : Nat) (e : Node) (k : String) (hk : k ≠ e.Key) :
    Get (singleRing C e) k = .ok (none, false) := by
  simp [Get, singleRing, lookup_singleton_ne k e.Key 0 hk]

theorem treeAt_ok_iff (t : List (Option Node)) (i : Int) (v : Option Node) :
    treeAt t i = .ok v ↔ (0 ≤ i ∧ i < (t.length : Int)) ∧ t.getD i.toNat none = v := by
  unfold treeAt
  split <;> simp_all

theorem treeSet_self_append (pre rest : List (Option Node)) (y v : Option Node) :
    treeSet (pre ++ y :: rest) (pre.length : Int) v = .ok (pre ++ v :: rest) := by
  have hlt : (pre.length : Int) < ((pre ++ y :: rest).length : Int) := by
    simp only [List.length_append, List.length_cons]
    omega
  simp only [treeSet, Int.toNat_ofNat]
  rw [if_pos ⟨Int.ofNat_nonneg _, hlt⟩]
  simp

theorem copySlots_from (src : List (Option Node)) :
    ∀ (n : Nat) (pre rest : List (Option Node)), pre.length = n → rest.length = src.length →
      (src.enumFrom n).foldlM (fun acc p => treeSet acc (p.1 : Int) p.2) (pre ++ rest)
        = .ok (pre ++ src) := by
  induction src with
  | nil =>
    intro n pre rest _ hrest
    have : rest = [] := List.length_eq_zero.mp hrest
    subst this
    rfl
  | cons x xs ih =>
    intro n pre rest hpre hrest
    cases rest with
    | nil => simp at hrest
    | cons y ys =>
      subst hpre
      simp only [List.enumFrom_cons, List.foldlM_cons, treeSet_self_append]
      have h := ih (pre.length + 1) (pre ++ [x]) ys (by simp) (by simpa using hrest)
      simpa [bind, Except.bind] using h

theorem copySlots_same_length (src dst : List (Option Node)) (h : dst.length = src.length) :
    copySlots src dst = .ok src := by
  have := copySlots_from src 0 [] dst rfl h
  simpa [copySlots, List.enum] using this

theorem lookup_foldl_insert (l : List (Sigma fun _ : String => Int)) :
    ∀ (_ : l.NodupKeys) (acc : AList (fun _ : String => Int)) (k : String),
      (l.foldl (fun acc p => acc.insert p.1 p.2) acc).lookup k =
        match List.dlookup k l with
        | some v => some v
        | none => acc.lookup k := by
  induction l with
  | nil =>
    intro _ acc k
    simp
  | cons p rest ih =>
    intro hnd acc k
    obtain ⟨a, b⟩ := p
    rw [List.nodupKeys_cons] at hnd
    simp only [List.foldl_cons]
    rw [ih hnd.2]
    by_cases hk : k = a
    · subst hk
      have hnone : List.dlookup k rest = none := List.dlookup_eq_none.mpr hnd.1
      rw [hnone, List.dlookup_cons_eq]
      simp [AList.lookup_insert]
    · rw [List.dlookup_cons_ne _ _ hk]
      cases List.dlookup k rest with
      | some v => rfl
      | none => simp [AList.lookup_insert_ne hk]

theorem copyKeys_lookup (src : AList (fun _ : String => Int)) (k : String) :
    (copyKeys src ∅).lookup k = src.lookup k := by
  unfold copyKeys
  rw [lookup_foldl_insert src.entries src.nodupKeys ∅ k]
  show (match List.dlookup k src.entries with
        | some v => some v
        | none => (∅ : AList (fun _ : String => Int)).lookup k) = List.dlookup k src.entries
  cases List.dlookup k src.entries <;> simp

theorem evictMinNodeLockless_occupied (d : BinheapOptimized) (e : Node)
    (hmin : treeAt d.Tree d.minIndex = .ok (some e)) :
    ∃ next : Int, evictMinNodeLockless d =
      .ok ({ d with Tree := d.Tree.set d.minIndex.toNat none, minIndex := next,
                    keyLookup := d.keyLookup.erase e.Key }, some e) := by
  obtain ⟨⟨h0, hlt⟩, -⟩ := (treeAt_ok_iff _ _ _).mp hmin
  have hset : treeSet d.Tree d.minIndex none = .ok (d.Tree.set d.minIndex.toNat none) := by
    simp [treeSet, h0, hlt]
  have hnat : d.minIndex.toNat < d.Tree.length := by omega
  unfold evictMinNodeLockless
  rw [hmin, hset]
  by_cases hmm : d.maxIndex = d.minIndex
  · refine ⟨0, ?_⟩
    simp [IsEmpty, hmm, treeAt, h0, hlt, hnat, Except.map]
  · refine ⟨d.minIndex + 1, ?_⟩
    have hcap : ¬ (d.minIndex + 1 > (d.Tree.length : Int) + (d.spareCap : Int)) := by omega
    simp [IsEmpty, hmm, safeIndex, treeCap, hcap]

theorem Unlock_unlocked (d d1 : BinheapOptimized) (h : Unlock d = .ok d1) :
    d1.locked = false := by
  unfold Unlock at h
  split at h
  · simp only [Except.ok.injEq] at h
    rw [← h]
  · simp at h

theorem insertZeroAndReturn_unlocked (d d1 : BinheapOptimized) (n r : Node)
    (h : insertZeroAndReturn d n = .ok (d1, r)) : d1.locked = false := by
  unfold insertZeroAndReturn at h
  split at h
  · simp at h
  · split at h
    · simp at h
    · next d2 hu =>
      simp only [Except.ok.injEq, Prod.mk.injEq] at h
      exact h.1 ▸ Unlock_unlocked _ _ hu

theorem insertCompare_unlocked (d d1 : BinheapOptimized) (n r : Node)
    (h : insertCompare d n = .ok (d1, r)) : d1.locked = false := by
  unfold insertCompare at h
  dsimp only at h
  repeat' (split at h)
  all_goals first
    | (simp at h; done)
    | (simp only [Except.ok.injEq, Prod.mk.injEq] at h
       exact h.1 ▸ Unlock_unlocked _ _ (by assumption))

theorem Insert_unlocked (d d1 : BinheapOptimized) (n r : Node)
    (h : Insert d n = .ok (d1, r)) : d1.locked = false := by
  unfold Insert at h
  split at h
  · simp at h
  · split at h
    · simp at h
    · exact insertZeroAndReturn_unlocked _ _ _ _ h
    · split at h
      · simp at h
      · exact insertCompare_unlocked _ _ _ _ h
      · split at h
        · simp at h
        · split at h
          · simp at h
          · exact insertZeroAndReturn_unlocked _ _ _ _ h
          · exact insertCompare_unlocked _ _ _ _ h

theorem EvictMinNode_unlocked (d d1 : BinheapOptimized) (r : Option Node)
    (h : EvictMinNode d = .ok (d1, r)) : d1.locked = false := by
  unfold EvictMinNode at h
  split at h
  · simp at h
  · split at h
    · simp at h
    · split at h
      · simp at h
      · next d2 hu =>
        simp only [Except.ok.injEq, Prod.mk.injEq] at h
        exact h.1 ▸ Unlock_unlocked _ _ hu

theorem Copy_unlocked (d d1 c : BinheapOptimized)
    (h : Copy d = .ok (d1, c)) : d1.locked = false ∧ c.locked = false := by
  unfold Copy at h
  dsimp only at h
  repeat' (split at h)
  all_goals first
    | (simp at h; done)
    | (simp only [Except.ok.injEq, Prod.mk.injEq] at h
       refine ⟨h.1 ▸ Unlock_unlocked _ _ (by assumption), ?_⟩
       rw [← h.2]
       rfl)

theorem UpdateNodeTimeout_single (C : Nat) (e : Node) (now : Int) :
    UpdateNodeTimeout (singleRing C e) e.Key now
      = .ok (singleRing C ⟨e.Key, now⟩, some ⟨e.Key, now⟩) := by
  simp [UpdateNodeTimeout, Lock, singleRing, lookup_singleton_self, treeAt, treeSet,
    CurrentSize, Get, Unlock, Except.map]

theorem applyOp_insert_new (C : Nat) (hC : 1 ≤ C) (e : Node) :
    applyOp (NewBinheapOptimized C) (Op.insert e) = .ok (singleRing C e) := by
  simp [applyOp, Insert_new C hC, Except.map]

theorem applyOp_insert_single (C : Nat) (e0 e : Node) :
    applyOp (singleRing C e0) (Op.insert e) = .ok (singleRing C e) := by
  simp [applyOp, Insert_single, Except.map]

theorem applyOp_evict_single (C : Nat) (hC : 1 ≤ C) (e0 : Node) :
    applyOp (singleRing C e0) Op.evictMin = .ok (NewBinheapOptimized C) := by
  simp [applyOp, EvictMinNode_single C hC, Except.map]

theorem IsEmpty_new (C : Nat) (hC : 1 ≤ C) : IsEmpty (NewBinheapOptimized C) = .ok true := by
  simp [IsEmpty, NewBinheapOptimized, treeAt, replicate_pred_cons C hC, Except.map]

/-- A guarded call sequence on a ring of one of the two closed forms returns. -/
theorem runOps_guarded_returns (C : Nat) (hC : 1 ≤ C) (ops : List Op) :
    ∀ d : BinheapOptimized,
      (d = NewBinheapOptimized C ∨ ∃ e, d = singleRing C e) →
      evictGuarded d ops = true →
      ∃ d1 : BinheapOptimized, runOps d ops = .ok d1 := by
  induction ops with
  | nil =>
    intro d _ _
    exact ⟨d, rfl⟩
  | cons op rest ih =>
    intro d hd hg
    cases op with
    | insert e =>
      have hstep : applyOp d (Op.insert e) = .ok (singleRing C e) := by
        rcases hd with rfl | ⟨e0, rfl⟩
        · exact applyOp_insert_new C hC e
        · exact applyOp_insert_single C e0 e
      simp only [evictGuarded, hstep, Bool.true_and] at hg
      simp only [runOps, hstep]
      exact ih _ (Or.inr ⟨e, rfl⟩) hg
    | evictMin =>
      rcases hd with rfl | ⟨e0, rfl⟩
      · simp [evictGuarded, IsEmpty_new C hC] at hg
      · have hstep := applyOp_evict_single C hC e0
        simp only [evictGuarded, hstep, Bool.and_eq_true] at hg
        simp only [runOps, hstep]
        exact ih _ (Or.inl rfl) hg.2

theorem Insert_branch_new (C : Nat) (hC : 1 ≤ C) :
    ∃ d0 : BinheapOptimized, Lock (NewBinheapOptimized C) = .ok d0 ∧ IsEmpty d0 = .ok true := by
  refine ⟨{ NewBinheapOptimized C with locked := true }, rfl, ?_⟩
  simp [IsEmpty, NewBinheapOptimized, treeAt, replicate_pred_cons C hC, Except.map]

theorem Insert_branch_single (C : Nat) (e0 : Node) :
    ∃ d0 : BinheapOptimized, Lock (singleRing C e0) = .ok d0 ∧
      IsEmpty d0 = .ok false ∧ IsFull d0 = .ok true ∧
      ∃ (d2 : BinheapOptimized) (v : Option Node),
        evictMinNodeLockless d0 = .ok (d2, v) ∧ IsEmpty d2 = .ok true := by
  refine ⟨{ singleRing C e0 with locked := true }, rfl, ?_, ?_, ?_⟩
  · simp [IsEmpty, singleRing, treeAt, Except.map]
  · simp [IsFull, singleRing, treeAt, Except.map]
  · refine ⟨{ NewBinheapOptimized (C - 1 + 1) with locked := true }, some e0, ?_, ?_⟩
    · simp [evictMinNodeLockless, singleRing, treeAt, treeSet, IsEmpty, Except.map,
        erase_singleton, NewBinheapOptimized, List.replicate_succ]
    · simp [IsEmpty, NewBinheapOptimized, treeAt, List.replicate_succ, Except.map]

/-! ## The claims -/

/-- C1: inserting two entries with distinct keys into a fresh ring of capacity
2 does not keep both. `IsFull` holds as soon as one entry is stored (both
indices are 0 and slot 0 is set), so the second `Insert` evicts the first
entry: `Get("a")` reports not-found although capacity is not exhausted. -/
theorem insert_two_loses_first :
    (insertAll (NewBinheapOptimized 2) [⟨"a", 1⟩, ⟨"b", 2⟩]).bind (fun d => Get d "a")
      = .ok (none, false) := by
  rfl

/-- C2: after three `Insert` calls with distinct keys on a fresh ring of
capacity 10 the ring holds one entry in slot 0 with both indices 0, and
`CurrentSize()` returns `maxIndex - minIndex = 0`, not 3. -/
theorem currentSize_after_three_inserts :
    (insertAll (NewBinheapOptimized 10) [⟨"a", 1⟩, ⟨"b", 2⟩, ⟨"c", 3⟩]).bind CurrentSize
      = .ok 0 := by
  rfl

/-- C3: on a ring of capacity 2 that received two distinct-key inserts, one
further `Insert` leaves the first inserted key not found and `CurrentSize()`
at 0, not 2; only the newest entry is stored. -/
theorem insert_into_filled_ring :
    (insertAll (NewBinheapOptimized 2) [⟨"a", 1⟩, ⟨"b", 2⟩, ⟨"c", 3⟩]).bind
        (fun d => (Get d "a").bind (fun ga => (Get d "c").bind (fun gc =>
          (CurrentSize d).map (fun n => (ga, gc, n)))))
      = .ok ((none, false), (some ⟨"c", 3⟩, true), 0) := by
  rfl

/-- C4: `EvictMinNode()` on a freshly constructed (empty) ring of any capacity
`C + 1` does not return: `delete(d.keyLookup, minNode.Key)` dereferences the
nil `minNode`. -/
theorem EvictMinNode_empty_faults (C : Nat) :
    EvictMinNode (NewBinheapOptimized (C + 1)) = .error Fault.nilDereference :=
  EvictMinNode_new (C + 1) (Nat.le_add_left 1 C)

/-- C5, counterexample: the scenario of `TestPeek`. After one `Insert` on a
ring of capacity 10, `CurrentSize()` is 0, so index 0 is not less than
`CurrentSize()`, and `Peek(0)` returns the inserted node with a nil error, not
the OutOfRange error. -/
theorem Peek_at_currentSize :
    (insertAll (NewBinheapOptimized 10) [⟨"TestingNewNodeKey", 1⟩]).bind CurrentSize
        = .ok 0 ∧
      (insertAll (NewBinheapOptimized 10) [⟨"TestingNewNodeKey", 1⟩]).bind
          (fun d => Peek d 0) = .ok (some ⟨"TestingNewNodeKey", 1⟩, none) :=
  ⟨rfl, rfl⟩

/-- C5, amended: on every ring on which `CurrentSize()` returns, for every
index `i >= 0`, `Peek(i)` returns the OutOfRange error exactly when
`i > CurrentSize()`; for `i <= CurrentSize()` inside the backing array it
returns the content of slot `i` with a nil error. `Peek` writes no field of
the ring: its result is a function of the ring alone. -/
theorem Peek_guard (d : BinheapOptimized) (i size : Int) (h0 : 0 ≤ i)
    (hsize : CurrentSize d = .ok size) :
    (Peek d i = .ok (none, some peekError) ↔ size < i) ∧
      (i ≤ size → i < (d.Tree.length : Int) →
        Peek d i = .ok (d.Tree.getD i.toNat none, none)) := by
  constructor
  · constructor
    · intro hp
      by_contra hle
      have hng : ¬ i > size := hle
      simp only [Peek, hsize, hng, if_false] at hp
      unfold treeAt at hp
      split at hp <;> simp [Except.map] at hp
    · intro hlt
      have hgt : i > size := hlt
      simp [Peek, hsize, hgt]
  · intro hle hlen
    have hng : ¬ i > size := by omega
    simp [Peek, hsize, hng, treeAt, h0, hlen, Except.map]

/-- Witness of C5: index 0 on a ring of capacity 10 holding one entry, where
`CurrentSize()` is 0. -/
theorem Peek_guard_witness :
    (Peek (singleRing 10 ⟨"TestingNewNodeKey", 1⟩) 0 = .ok (none, some peekError)
        ↔ (0 : Int) < 0) ∧
      ((0 : Int) ≤ 0 → (0 : Int) < ((singleRing 10 ⟨"TestingNewNodeKey", 1⟩).Tree.length : Int) →
        Peek (singleRing 10 ⟨"TestingNewNodeKey", 1⟩) 0
          = .ok ((singleRing 10 ⟨"TestingNewNodeKey", 1⟩).Tree.getD (0 : Int).toNat none, none)) :=
  Peek_guard (singleRing 10 ⟨"TestingNewNodeKey", 1⟩) 0 0 (by decide) rfl

/-- C6: after any sequence of `Insert` and `EvictMinNode` calls that returns,
on a ring constructed with capacity `C >= 1`, INV1 and INV2 hold. -/
theorem INV_after_calls (C : Nat) (hC : 1 ≤ C) (ops : List Op) (d : BinheapOptimized)
    (h : runOps (NewBinheapOptimized C) ops = .ok d) :
    INV1 d ∧ INV2 d := by
  rcases runOps_new_closed C hC ops d h with rfl | ⟨e, rfl⟩
  · exact ⟨INV1_new C, INV2_new C⟩
  · exact ⟨INV1_single C e, INV2_single C e⟩

/-- Witness of C6: insert, evict, insert, insert on a ring of capacity 3. -/
theorem INV_after_calls_witness :
    INV1 (singleRing 3 ⟨"b", 2⟩) ∧ INV2 (singleRing 3 ⟨"b", 2⟩) :=
  INV_after_calls 3 (by decide)
    [Op.insert ⟨"a", 1⟩, Op.evictMin, Op.insert ⟨"a", 1⟩, Op.insert ⟨"b", 2⟩]
    (singleRing 3 ⟨"b", 2⟩) rfl

/-- C7: `Copy()` on a ring whose lock is free returns a ring with as many slots
as the source, the same entry in every slot, the same value for every key in
the key index, and the same `minIndex` and `maxIndex`; the source is
unchanged. The copy's `cap` is the source's `len`. -/
theorem Copy_matches_source (d : BinheapOptimized) (hfree : d.locked = false) :
    ∃ c : BinheapOptimized, Copy d = .ok (d, c) ∧
      c.Tree.length = d.Tree.length ∧
      (∀ i : Nat, c.Tree[i]? = d.Tree[i]?) ∧
      (∀ k : String, c.keyLookup.lookup k = d.keyLookup.lookup k) ∧
      c.minIndex = d.minIndex ∧ c.maxIndex = d.maxIndex ∧
      treeCap c = (d.Tree.length : Int) ∧ c.locked = false := by
  have hslots : copySlots d.Tree (List.replicate d.Tree.length none) = .ok d.Tree :=
    copySlots_same_length _ _ (by simp)
  obtain ⟨t, sp, mx, mn, kl, lk⟩ := d
  simp only at hfree hslots
  subst hfree
  refine ⟨{ Tree := t, spareCap := 0, maxIndex := mx, minIndex := mn,
            keyLookup := copyKeys kl ∅, locked := false }, ?_, rfl, fun _ => rfl,
          fun k => copyKeys_lookup kl k, rfl, rfl, ?_, rfl⟩
  · simp [Copy, Lock, Unlock, NewBinheapOptimized, hslots]
  · simp [treeCap]

/-- Witness of C7: the copy of a ring of capacity 2 holding one entry. -/
theorem Copy_matches_source_witness :
    ∃ c : BinheapOptimized, Copy (singleRing 2 ⟨"a", 1⟩) = .ok (singleRing 2 ⟨"a", 1⟩, c) ∧
      c.Tree.length = (singleRing 2 ⟨"a", 1⟩).Tree.length ∧
      (∀ i : Nat, c.Tree[i]? = (singleRing 2 ⟨"a", 1⟩).Tree[i]?) ∧
      (∀ k : String, c.keyLookup.lookup k = (singleRing 2 ⟨"a", 1⟩).keyLookup.lookup k) ∧
      c.minIndex = (singleRing 2 ⟨"a", 1⟩).minIndex ∧
      c.maxIndex = (singleRing 2 ⟨"a", 1⟩).maxIndex ∧
      treeCap c = ((singleRing 2 ⟨"a", 1⟩).Tree.length : Int) ∧ c.locked = false :=
  Copy_matches_source (singleRing 2 ⟨"a", 1⟩) rfl

/-- C8: on a ring of capacity 1, `Insert(A)` then `Insert(B)` with distinct
keys and `B.Timeout` after `A.Timeout` both return, slot 0 then holds `B`,
`Get(A.Key)` is not-found and `Get(B.Key)` is `(B, true)`. -/
theorem capacity_one_overflow (A B : Node) (hkey : A.Key ≠ B.Key)
    (_hlater : A.Timeout < B.Timeout) :
    ∃ d1 d2 : BinheapOptimized,
      Insert (NewBinheapOptimized 1) A = .ok (d1, A) ∧ Insert d1 B = .ok (d2, B) ∧
      d2.Tree = [some B] ∧
      Get d2 A.Key = .ok (none, false) ∧ Get d2 B.Key = .ok (some B, true) := by
  refine ⟨singleRing 1 A, singleRing 1 B, Insert_new 1 le_rfl A, Insert_single 1 A B, rfl,
    Get_single_other 1 B A.Key hkey, Get_single_self 1 B⟩

/-- Witness of C8: `A = ("a", 1)` and `B = ("b", 2)`. -/
theorem capacity_one_overflow_witness :
    ∃ d1 d2 : BinheapOptimized,
      Insert (NewBinheapOptimized 1) ⟨"a", 1⟩ = .ok (d1, ⟨"a", 1⟩) ∧
      Insert d1 ⟨"b", 2⟩ = .ok (d2, ⟨"b", 2⟩) ∧
      d2.Tree = [some ⟨"b", 2⟩] ∧
      Get d2 "a" = .ok (none, false) ∧ Get d2 "b" = .ok (some ⟨"b", 2⟩, true) :=
  capacity_one_overflow ⟨"a", 1⟩ ⟨"b", 2⟩ (by decide) (by decide)

/-- C9: in every state that a returning sequence of `Insert` and
`EvictMinNode` calls reaches from a fresh ring of capacity `C >= 1`, `Get(k)`
returns `(e, true)` exactly when an occupied slot holds an entry `e` with key
`k`, returns `(nil, false)` when no occupied slot has key `k`, and every
`Insert(e)` returns and is followed by `Get(e.Key) = (e, true)`. -/
theorem Get_reachable (C : Nat) (hC : 1 ≤ C) (ops : List Op) (d : BinheapOptimized)
    (h : runOps (NewBinheapOptimized C) ops = .ok d) (k : String) :
    (∀ e : Node, Get d k = .ok (some e, true) ↔
        ∃ i : Nat, d.Tree[i]? = some (some e) ∧ e.Key = k) ∧
    ((¬ ∃ (i : Nat) (e : Node), d.Tree[i]? = some (some e) ∧ e.Key = k) →
        Get d k = .ok (none, false)) ∧
    (∀ e : Node, ∃ d1 : BinheapOptimized,
        Insert d e = .ok (d1, e) ∧ Get d1 e.Key = .ok (some e, true)) := by
  rcases runOps_new_closed C hC ops d h with rfl | ⟨e0, rfl⟩
  · refine ⟨fun e => ?_, fun _ => Get_new C k,
      fun e => ⟨singleRing C e, Insert_new C hC e, Get_single_self C e⟩⟩
    rw [Get_new]
    constructor
    · intro hget
      simp at hget
    · rintro ⟨i, hi, -⟩
      exact absurd hi (getElem?_replicate_none _ _ _)
  · refine ⟨fun e => ?_, fun hno => ?_,
      fun e => ⟨singleRing C e, Insert_single C e0 e, Get_single_self C e⟩⟩
    · by_cases hk : k = e0.Key
      · subst hk
        rw [Get_single_self]
        constructor
        · intro hget
          have he : e0 = e := by simpa using hget
          subst he
          exact ⟨0, by simp [singleRing], rfl⟩
        · rintro ⟨i, hi, -⟩
          obtain ⟨-, rfl⟩ := (getElem?_single C i e0 e).mp hi
          rfl
      · rw [Get_single_other C e0 k hk]
        constructor
        · intro hget
          simp at hget
        · rintro ⟨i, hi, hkey⟩
          obtain ⟨-, rfl⟩ := (getElem?_single C i e0 e).mp hi
          exact absurd hkey.symm hk
    · by_cases hk : k = e0.Key
      · exact absurd ⟨0, e0, by simp [singleRing], hk.symm⟩ hno
      · exact Get_single_other C e0 k hk

/-- Witness of C9: the state after insert, insert, evict, insert on a ring of
capacity 4, looked up at key `"c"`. -/
theorem Get_reachable_witness :
    (∀ e : Node, Get (singleRing 4 ⟨"c", 3⟩) "c" = .ok (some e, true) ↔
        ∃ i : Nat, (singleRing 4 ⟨"c", 3⟩).Tree[i]? = some (some e) ∧ e.Key = "c") ∧
    ((¬ ∃ (i : Nat) (e : Node),
          (singleRing 4 ⟨"c", 3⟩).Tree[i]? = some (some e) ∧ e.Key = "c") →
        Get (singleRing 4 ⟨"c", 3⟩) "c" = .ok (none, false)) ∧
    (∀ e : Node, ∃ d1 : BinheapOptimized,
        Insert (singleRing 4 ⟨"c", 3⟩) e = .ok (d1, e) ∧
          Get d1 e.Key = .ok (some e, true)) :=
  Get_reachable 4 (by decide)
    [Op.insert ⟨"a", 1⟩, Op.insert ⟨"b", 2⟩, Op.evictMin, Op.insert ⟨"c", 3⟩]
    (singleRing 4 ⟨"c", 3⟩) rfl "c"

/-- C10, counterexample: the ring `emptyMinSlotRing` is non-empty (`IsEmpty()`
is false) and satisfies INV1 and INV2, but its slot at `minIndex` is nil, and
`EvictMinNode()` does not return an entry: it stops at `minNode.Key`. -/
theorem EvictMinNode_empty_min_slot :
    IsEmpty emptyMinSlotRing = .ok false ∧ INV1 emptyMinSlotRing ∧ INV2 emptyMinSlotRing ∧
      EvictMinNode emptyMinSlotRing = .error Fault.nilDereference := by
  refine ⟨rfl, ?_, ?_, rfl⟩
  · intro i e hi
    match i with
    | 0 =>
      have he : (⟨"a", 1⟩ : Node) = e := by simpa [emptyMinSlotRing] using hi
      subst he
      simp [emptyMinSlotRing, lookup_singleton_self]
    | 1 => simp [emptyMinSlotRing] at hi
    | j + 2 => simp [emptyMinSlotRing] at hi
  · intro k
    constructor
    · intro hk
      have hka : k = "a" := by simpa [emptyMinSlotRing, mem_singleton_key] using hk
      exact ⟨0, ⟨"a", 1⟩, by simp [emptyMinSlotRing], hka.symm⟩
    · rintro ⟨i, e, hi, rfl⟩
      match i with
      | 0 =>
        have he : (⟨"a", 1⟩ : Node) = e := by simpa [emptyMinSlotRing] using hi
        subst he
        simp [emptyMinSlotRing, mem_singleton_key]
      | 1 => simp [emptyMinSlotRing] at hi
      | j + 2 => simp [emptyMinSlotRing] at hi

/-- C10, amended: on a ring whose lock is free and whose slot at `minIndex`
holds the entry `e` (such a ring is non-empty), `EvictMinNode()` returns `e`,
leaves that slot empty and `e.Key` absent from the key index, and leaves every
other slot, the value of every other key and `maxIndex` unchanged. This holds
with or without INV1 and INV2. -/
theorem EvictMinNode_occupied (d : BinheapOptimized) (e : Node) (hfree : d.locked = false)
    (hmin : treeAt d.Tree d.minIndex = .ok (some e)) :
    IsEmpty d = .ok false ∧
    ∃ d1 : BinheapOptimized, EvictMinNode d = .ok (d1, some e) ∧
      treeAt d1.Tree d.minIndex = .ok none ∧
      d1.keyLookup.lookup e.Key = none ∧
      (∀ i : Int, i ≠ d.minIndex → treeAt d1.Tree i = treeAt d.Tree i) ∧
      (∀ k : String, k ≠ e.Key → d1.keyLookup.lookup k = d.keyLookup.lookup k) ∧
      d1.Tree.length = d.Tree.length ∧ d1.maxIndex = d.maxIndex ∧ d1.locked = false := by
  obtain ⟨next, hev⟩ := evictMinNodeLockless_occupied { d with locked := true } e hmin
  obtain ⟨⟨h0, hlt⟩, hget⟩ := (treeAt_ok_iff _ _ _).mp hmin
  have hnat : d.minIndex.toNat < d.Tree.length := by omega
  refine ⟨?_, ?_⟩
  · unfold IsEmpty
    split
    · next hmm => rw [hmm, hmin]; rfl
    · rfl
  refine ⟨{ d with Tree := d.Tree.set d.minIndex.toNat none, minIndex := next,
                   keyLookup := d.keyLookup.erase e.Key }, ?_, ?_, ?_, ?_, ?_, ?_, rfl, hfree⟩
  · obtain ⟨t, sp, mx, mn, kl, lk⟩ := d
    simp only at hfree
    subst hfree
    simp only [EvictMinNode, Lock, Bool.false_eq_true, if_false, hev, Unlock, if_true]
  · simp [treeAt, h0, hlt, hnat]
  · exact AList.lookup_erase _ _
  · intro i hi
    unfold treeAt
    simp only [List.length_set]
    split
    · next hin =>
      have hne : d.minIndex.toNat ≠ i.toNat := by omega
      simp [List.getD_eq_getElem?_getD, List.getElem?_set_ne hne]
    · rfl
  · intro k hk
    exact AList.lookup_erase_ne hk
  · simp

/-- Witness of C10: eviction from a ring of capacity 2 holding `("a", 1)`. -/
theorem EvictMinNode_occupied_witness :
    IsEmpty (singleRing 2 ⟨"a", 1⟩) = .ok false ∧
    ∃ d1 : BinheapOptimized, EvictMinNode (singleRing 2 ⟨"a", 1⟩) = .ok (d1, some ⟨"a", 1⟩) ∧
      treeAt d1.Tree (singleRing 2 ⟨"a", 1⟩).minIndex = .ok none ∧
      d1.keyLookup.lookup "a" = none ∧
      (∀ i : Int, i ≠ (singleRing 2 ⟨"a", 1⟩).minIndex →
        treeAt d1.Tree i = treeAt (singleRing 2 ⟨"a", 1⟩).Tree i) ∧
      (∀ k : String, k ≠ "a" →
        d1.keyLookup.lookup k = (singleRing 2 ⟨"a", 1⟩).keyLookup.lookup k) ∧
      d1.Tree.length = (singleRing 2 ⟨"a", 1⟩).Tree.length ∧
      d1.maxIndex = (singleRing 2 ⟨"a", 1⟩).maxIndex ∧ d1.locked = false :=
  EvictMinNode_occupied (singleRing 2 ⟨"a", 1⟩) ⟨"a", 1⟩ rfl rfl

/-- C11: `UpdateNodeTimeout` called with the lock free on a key that is not in
the key index returns nil with the lock still held: the early return at
source line 153 has no `Unlock`. (`Insert`, `EvictMinNode` and `Copy` release
the lock on each of their returns: `Insert_unlocked`, `EvictMinNode_unlocked`,
`Copy_unlocked`.) -/
theorem UpdateNodeTimeout_absent_keeps_lock :
    (NewBinheapOptimized 1).locked = false ∧
      UpdateNodeTimeout (NewBinheapOptimized 1) "missing" 5
        = .ok ({ NewBinheapOptimized 1 with locked := true }, none) :=
  ⟨rfl, rfl⟩

/-- C12: on a ring whose lock is free, `UpdateNodeTimeout(key)` for a key that
is not in the key index returns nil and leaves the slots (so every stored
entry and its Timeout), the key index and both indices unchanged. -/
theorem UpdateNodeTimeout_absent_key (d : BinheapOptimized) (key : String) (now : Int)
    (hfree : d.locked = false) (habs : key ∉ d.keyLookup) :
    ∃ d1 : BinheapOptimized, UpdateNodeTimeout d key now = .ok (d1, none) ∧
      d1.Tree = d.Tree ∧ d1.keyLookup = d.keyLookup ∧
      d1.minIndex = d.minIndex ∧ d1.maxIndex = d.maxIndex := by
  have hnone : d.keyLookup.lookup key = none := AList.lookup_eq_none.mpr habs
  refine ⟨{ d with locked := true }, ?_, rfl, rfl, rfl, rfl⟩
  simp [UpdateNodeTimeout, Lock, hfree, hnone]

/-- Witness of C12: key `"b"` on a ring of capacity 2 that holds key `"a"`. -/
theorem UpdateNodeTimeout_absent_key_witness :
    ∃ d1 : BinheapOptimized, UpdateNodeTimeout (singleRing 2 ⟨"a", 1⟩) "b" 7 = .ok (d1, none) ∧
      d1.Tree = (singleRing 2 ⟨"a", 1⟩).Tree ∧
      d1.keyLookup = (singleRing 2 ⟨"a", 1⟩).keyLookup ∧
      d1.minIndex = (singleRing 2 ⟨"a", 1⟩).minIndex ∧
      d1.maxIndex = (singleRing 2 ⟨"a", 1⟩).maxIndex :=
  UpdateNodeTimeout_absent_key (singleRing 2 ⟨"a", 1⟩) "b" 7 rfl
    (by simp [singleRing, mem_singleton_key])

/-- C14: `ReAllocate(n)` on a ring with `C` slots yields `C + n` slots; slots
`0..C-1` hold what they held, slots `C..C+n-1` are empty, and `minIndex`,
`maxIndex` and the key index are unchanged. -/
theorem ReAllocate_appends (d : BinheapOptimized) (n slack : Nat) :
    (ReAllocate d n slack).Tree.length = d.Tree.length + n ∧
    (∀ i : Nat, i < d.Tree.length → (ReAllocate d n slack).Tree[i]? = d.Tree[i]?) ∧
    (∀ i : Nat, d.Tree.length ≤ i → i < d.Tree.length + n →
        (ReAllocate d n slack).Tree[i]? = some none) ∧
    (ReAllocate d n slack).minIndex = d.minIndex ∧
    (ReAllocate d n slack).maxIndex = d.maxIndex ∧
    (ReAllocate d n slack).keyLookup = d.keyLookup := by
  refine ⟨by simp [ReAllocate], ?_, ?_, rfl, rfl, rfl⟩
  · intro i hi
    simp [ReAllocate, List.getElem?_append_left hi]
  · intro i hle hlt
    have hsub : i - d.Tree.length < n := by omega
    simp [ReAllocate, List.getElem?_append_right hle, hsub]

/-- Witness of C14: two more slots on a ring of capacity 2 holding one entry. -/
theorem ReAllocate_appends_witness :
    (ReAllocate (singleRing 2 ⟨"a", 1⟩) 2 0).Tree = [some ⟨"a", 1⟩, none, none, none] ∧
    (ReAllocate (singleRing 2 ⟨"a", 1⟩) 2 0).Tree.length
      = (singleRing 2 ⟨"a", 1⟩).Tree.length + 2 :=
  ⟨rfl, (ReAllocate_appends (singleRing 2 ⟨"a", 1⟩) 2 0).1⟩

/-- C15: a freshly constructed ring of capacity `C >= 1` is empty: `IsEmpty()`
returns true and `CurrentSize()` returns 0. -/
theorem fresh_ring_empty (C : Nat) (hC : 1 ≤ C) :
    IsEmpty (NewBinheapOptimized C) = .ok true ∧
      CurrentSize (NewBinheapOptimized C) = .ok 0 := by
  constructor
  · simp [IsEmpty, NewBinheapOptimized, treeAt, replicate_pred_cons C hC, Except.map]
  · simp [CurrentSize, NewBinheapOptimized, treeAt, replicate_pred_cons C hC]

/-- Witness of C15: capacity 10, as in `TestIsEmpty` and `TestCurrentSizeEmpty`. -/
theorem fresh_ring_empty_witness :
    IsEmpty (NewBinheapOptimized 10) = .ok true ∧
      CurrentSize (NewBinheapOptimized 10) = .ok 0 :=
  fresh_ring_empty 10 (by decide)

/-- C18: for every capacity `C + 1`, `safeIndex(C + 1, C, INCREMENT)` returns
`C + 1`, not 0: the wrap test is `nextVal > treeCapacity`, so the step from
the last slot does not wrap and leaves the range `[0, C + 1)`. -/
theorem safeIndex_increment_last (C : Nat) :
    safeIndex ((C : Int) + 1) (C : Int) Direction.INCREMENT = .ok ((C : Int) + 1) := by
  simp [safeIndex]

/-- C19: for every capacity `C >= 1` and index `0 <= i < C`,
`safeIndex(C, i, DECREMENT)` is `(i - 1 + C) mod C`, which lies in `[0, C)`;
`safeIndex(C, 0, DECREMENT)` is `C - 1`. -/
theorem safeIndex_decrement (C i : Int) (hC : 1 ≤ C) (h0 : 0 ≤ i) (hi : i < C) :
    safeIndex C i Direction.DECREMENT = .ok ((i - 1 + C) % C) ∧
      0 ≤ (i - 1 + C) % C ∧ (i - 1 + C) % C < C ∧
      safeIndex C 0 Direction.DECREMENT = .ok (C - 1) := by
  have hmod : (i - 1 + C) % C = if i = 0 then C - 1 else i - 1 := by
    split
    · next hz =>
      subst hz
      rw [show (0 - 1 + C : Int) = C - 1 by ring]
      exact Int.emod_eq_of_lt (by omega) (by omega)
    · next hz =>
      rw [Int.add_emod_self]
      exact Int.emod_eq_of_lt (by omega) (by omega)
  refine ⟨?_, ?_, ?_, ?_⟩
  · rw [hmod]
    by_cases hz : i = 0
    · subst hz
      simp [safeIndex]
    · have hneg : ¬ (i - 1 < 0) := by omega
      simp [safeIndex, hz, hneg]
  · rw [hmod]; split <;> omega
  · rw [hmod]; split <;> omega
  · simp [safeIndex]

/-- Witness of C19: capacity 100 and index 1, as in `TestSafeIndexDecrementToZero`. -/
theorem safeIndex_decrement_witness :
    safeIndex 100 1 Direction.DECREMENT = .ok ((1 - 1 + 100) % 100) ∧
      0 ≤ ((1 : Int) - 1 + 100) % 100 ∧ ((1 : Int) - 1 + 100) % 100 < 100 ∧
      safeIndex 100 0 Direction.DECREMENT = .ok (100 - 1) :=
  safeIndex_decrement 100 1 (by decide) (by decide) (by decide)

/-- C13: in every state that a returning sequence of `Insert` and
`EvictMinNode` calls reaches from a fresh ring of capacity `C >= 1`, for every
key in the key index, `UpdateNodeTimeout(key)` returns (no out-of-range and no
nil access) the entry `e` stored under that key with its Timeout set to `now`;
the slot of `e` holds that updated entry, every other slot, the key of every
slot, the key index and both indices are unchanged, and the lock is free. -/
theorem UpdateNodeTimeout_reachable (C : Nat) (hC : 1 ≤ C) (ops : List Op)
    (d : BinheapOptimized) (h : runOps (NewBinheapOptimized C) ops = .ok d)
    (key : String) (now : Int) (hkey : key ∈ d.keyLookup) :
    ∃ (e : Node) (idx : Int) (d1 : BinheapOptimized),
      d.keyLookup.lookup key = some idx ∧ treeAt d.Tree idx = .ok (some e) ∧ e.Key = key ∧
      UpdateNodeTimeout d key now = .ok (d1, some { e with Timeout := now }) ∧
      treeSet d.Tree idx (some { e with Timeout := now }) = .ok d1.Tree ∧
      (∀ i : Nat, (d1.Tree[i]?).map (Option.map Node.Key)
          = (d.Tree[i]?).map (Option.map Node.Key)) ∧
      d1.keyLookup = d.keyLookup ∧ d1.minIndex = d.minIndex ∧ d1.maxIndex = d.maxIndex ∧
      d1.locked = false := by
  rcases runOps_new_closed C hC ops d h with rfl | ⟨e0, rfl⟩
  · simp [NewBinheapOptimized] at hkey
  · have hk : key = e0.Key := by simpa [singleRing, mem_singleton_key] using hkey
    subst hk
    refine ⟨e0, 0, singleRing C ⟨e0.Key, now⟩, ?_, ?_, rfl, UpdateNodeTimeout_single C e0 now,
      ?_, ?_, rfl, rfl, rfl, rfl⟩
    · simp [singleRing, lookup_singleton_self]
    · simp [singleRing, treeAt]
    · simp [singleRing, treeSet]
    · intro i
      cases i <;> simp [singleRing]

/-- Witness of C13: key `"b"` after insert `"a"`, insert `"b"` on capacity 3. -/
theorem UpdateNodeTimeout_reachable_witness :
    ∃ (e : Node) (idx : Int) (d1 : BinheapOptimized),
      (singleRing 3 ⟨"b", 2⟩).keyLookup.lookup "b" = some idx ∧
      treeAt (singleRing 3 ⟨"b", 2⟩).Tree idx = .ok (some e) ∧ e.Key = "b" ∧
      UpdateNodeTimeout (singleRing 3 ⟨"b", 2⟩) "b" 9 = .ok (d1, some { e with Timeout := 9 }) ∧
      treeSet (singleRing 3 ⟨"b", 2⟩).Tree idx (some { e with Timeout := 9 }) = .ok d1.Tree ∧
      (∀ i : Nat, (d1.Tree[i]?).map (Option.map Node.Key)
          = ((singleRing 3 ⟨"b", 2⟩).Tree[i]?).map (Option.map Node.Key)) ∧
      d1.keyLookup = (singleRing 3 ⟨"b", 2⟩).keyLookup ∧
      d1.minIndex = (singleRing 3 ⟨"b", 2⟩).minIndex ∧
      d1.maxIndex = (singleRing 3 ⟨"b", 2⟩).maxIndex ∧
      d1.locked = false :=
  UpdateNodeTimeout_reachable 3 (by decide) [Op.insert ⟨"a", 1⟩, Op.insert ⟨"b", 2⟩]
    (singleRing 3 ⟨"b", 2⟩) rfl "b" 9 (by simp [singleRing, mem_singleton_key])

/-- C16: the scenario of `TestKeyLookup`: capacity 5 and three inserts with
strictly increasing timeouts. The key index then holds only the last key, at
slot 0; the first and second keys are absent, not at slots 2 and 1. -/
theorem keyLookup_after_three_inserts :
    (insertAll (NewBinheapOptimized 5)
        [⟨"TestNode1", 1⟩, ⟨"TestNode2", 2⟩, ⟨"TestNode3", 3⟩]).map
      (fun d => (d.keyLookup.lookup "TestNode1", d.keyLookup.lookup "TestNode2",
                 d.keyLookup.lookup "TestNode3"))
      = .ok (none, none, some 0) := by
  rfl

/-- C17: capacity 5, three inserts with strictly increasing timeouts, then one
`EvictMinNode()`: the call returns the last inserted entry, and the two other
keys are not in the key index afterwards (they were not before either). -/
theorem keyLookup_after_eviction :
    (insertAll (NewBinheapOptimized 5)
        [⟨"TestNode1", 1⟩, ⟨"TestNode2", 2⟩, ⟨"TestNode3", 3⟩]).bind
      (fun d => (EvictMinNode d).map
        (fun r => (r.2, r.1.keyLookup.lookup "TestNode1", r.1.keyLookup.lookup "TestNode2")))
      = .ok (some ⟨"TestNode3", 3⟩, none, none) := by
  rfl

/-- C20: for every capacity `C >= 1`, every sequence of `Insert` and
`EvictMinNode` calls on a fresh ring in which `EvictMinNode` is called only on
a non-empty ring returns, and in the state it reaches `minIndex` and
`maxIndex` are 0 and only slot 0 can be occupied. Every `Insert(e)` on that
state returns with `e` in slot 0 and every other slot empty, and it never
takes the compare-and-place branch: either `IsEmpty()` holds at entry, or
`IsFull()` holds and `IsEmpty()` holds after the eviction. -/
theorem ring_holds_at_most_one (C : Nat) (hC : 1 ≤ C) (ops : List Op)
    (hg : evictGuarded (NewBinheapOptimized C) ops = true) :
    ∃ d : BinheapOptimized, runOps (NewBinheapOptimized C) ops = .ok d ∧
      d.minIndex = 0 ∧ d.maxIndex = 0 ∧
      (∀ (i : Nat) (e : Node), d.Tree[i]? = some (some e) → i = 0) ∧
      (∀ e : Node, ∃ d1 : BinheapOptimized, Insert d e = .ok (d1, e) ∧
          d1.Tree = some e :: List.replicate (C - 1) none ∧
          d1.minIndex = 0 ∧ d1.maxIndex = 0) ∧
      (∃ d0 : BinheapOptimized, Lock d = .ok d0 ∧
          (IsEmpty d0 = .ok true ∨
            (IsEmpty d0 = .ok false ∧ IsFull d0 = .ok true ∧
              ∃ (d2 : BinheapOptimized) (v : Option Node),
                evictMinNodeLockless d0 = .ok (d2, v) ∧ IsEmpty d2 = .ok true))) := by
  obtain ⟨d, hrun⟩ := runOps_guarded_returns C hC ops _ (Or.inl rfl) hg
  refine ⟨d, hrun, ?_⟩
  rcases runOps_new_closed C hC ops d hrun with rfl | ⟨e0, rfl⟩
  · refine ⟨rfl, rfl, ?_, fun e => ⟨singleRing C e, Insert_new C hC e, rfl, rfl, rfl⟩, ?_⟩
    · intro i e hi
      exact absurd hi (getElem?_replicate_none _ _ _)
    · obtain ⟨d0, hl, he⟩ := Insert_branch_new C hC
      exact ⟨d0, hl, Or.inl he⟩
  · refine ⟨rfl, rfl, ?_, fun e => ⟨singleRing C e, Insert_single C e0 e, rfl, rfl, rfl⟩, ?_⟩
    · intro i e hi
      exact ((getElem?_single C i e0 e).mp hi).1
    · obtain ⟨d0, hl, hrest⟩ := Insert_branch_single C e0
      exact ⟨d0, hl, Or.inr hrest⟩

/-- Witness of C20: insert, insert, evict, insert, insert on capacity 4. -/
theorem ring_holds_at_most_one_witness :
    ∃ d : BinheapOptimized,
      runOps (NewBinheapOptimized 4)
        [Op.insert ⟨"a", 1⟩, Op.insert ⟨"b", 2⟩, Op.evictMin, Op.insert ⟨"c", 3⟩,
         Op.insert ⟨"d", 4⟩] = .ok d ∧
      d.minIndex = 0 ∧ d.maxIndex = 0 ∧
      (∀ (i : Nat) (e : Node), d.Tree[i]? = some (some e) → i = 0) ∧
      (∀ e : Node, ∃ d1 : BinheapOptimized, Insert d e = .ok (d1, e) ∧
          d1.Tree = some e :: List.replicate (4 - 1) none ∧
          d1.minIndex = 0 ∧ d1.maxIndex = 0) ∧
      (∃ d0 : BinheapOptimized, Lock d = .ok d0 ∧
          (IsEmpty d0 = .ok true ∨
            (IsEmpty d0 = .ok false ∧ IsFull d0 = .ok true ∧
              ∃ (d2 : BinheapOptimized) (v : Option Node),
                evictMinNodeLockless d0 = .ok (d2, v) ∧ IsEmpty d2 = .ok true))) :=
  ring_holds_at_most_one 4 (by decide)
    [Op.insert ⟨"a", 1⟩, Op.insert ⟨"b", 2⟩, Op.evictMin, Op.insert ⟨"c", 3⟩,
     Op.insert ⟨"d", 4⟩] rfl

end binheapv2
